import Mathlib

/-!
Verification development for the popsicle binary-dependency closure
resolver and archive builder (src/bindep.rs, src/csum.rs, src/cache.rs).

Paths are modelled as strings; bytes as natural numbers.  Filesystem
access (mmap, exists, canonicalize) is modelled as explicit functions
packaged in an `FS` value.  The recursive closure solver is given an
explicit fuel argument (an artifact of the embedding; the Rust recursion
is bounded by the finite filesystem).
-/

namespace Popsicle

abbrev Path := String

/-- `Path::is_absolute` on Unix: the path starts with `/`. -/
def isAbsolute (p : Path) : Bool :=
  match p.data with
  | [] => false
  | c :: _ => c = '/'

/-- `path.strip_prefix("/")`: drop the leading root separator.  Only used
on absolute paths (the Rust code `unwrap`s the result, panicking
otherwise). -/
def stripRoot (p : Path) : Path := p.drop 1

/-- `Path::parent`: the path with its last component removed.
`"/opt/cc/bin/cc1"` gives `"/opt/cc/bin"`, `"/x"` gives `"/"`. -/
def parentDir (p : Path) : Path :=
  match (p.data.reverse.dropWhile (· ≠ '/')) with
  | [] => ""
  | '/' :: [] => "/"
  | _ :: r => String.mk r.reverse

/-- `[lib_dir, lib].into_iter().collect::<PathBuf>()`: joining a directory
and a file name.  Pushing an absolute component onto a `PathBuf` replaces
the whole path; pushing onto a directory inserts a separator when
needed. -/
def joinPath (dir name : String) : String :=
  if isAbsolute name then name
  else if dir.endsWith "/" then dir ++ name
  else dir ++ "/" ++ name

/-! ## Run-path token substitution (bindep.rs, `mod elf`)

The Rust code uses the regex
`(?:\$\x7b(ORIGIN|LIB|PLATFORM)\x7d|\$(ORIGIN|LIB|PLATFORM))`
with `replace_all`; `ORIGIN` captures are replaced by the binary's
directory, while `LIB`/`PLATFORM` hit `unimplemented!()`, aborting the
process.  We model the scan over the character list; `none` models the
abort. -/

def lbrace : Char := Char.ofNat 123
def rbrace : Char := Char.ofNat 125

inductive RPTok
  | origin
  | lib
  | platform
deriving DecidableEq

/-- Consume `pat` from the front of `s`, returning the rest. -/
def eatPat : List Char → List Char → Option (List Char)
  | [], s => some s
  | _ :: _, [] => none
  | p :: ps, c :: cs => if p = c then eatPat ps cs else none

def tokOriginBr : List Char := '$' :: lbrace :: ("ORIGIN".data ++ [rbrace])
def tokLibBr : List Char := '$' :: lbrace :: ("LIB".data ++ [rbrace])
def tokPlatformBr : List Char := '$' :: lbrace :: ("PLATFORM".data ++ [rbrace])
def tokOrigin : List Char := '$' :: "ORIGIN".data
def tokLib : List Char := '$' :: "LIB".data
def tokPlatform : List Char := '$' :: "PLATFORM".data

/-- Try to match one of the run-path tokens at the head of `s`, in the
regex's alternation order (braced forms first). -/
def matchTok (s : List Char) : Option (RPTok × List Char) :=
  match eatPat tokOriginBr s with
  | some r => some (.origin, r)
  | none =>
  match eatPat tokLibBr s with
  | some r => some (.lib, r)
  | none =>
  match eatPat tokPlatformBr s with
  | some r => some (.platform, r)
  | none =>
  match eatPat tokOrigin s with
  | some r => some (.origin, r)
  | none =>
  match eatPat tokLib s with
  | some r => some (.lib, r)
  | none =>
  match eatPat tokPlatform s with
  | some r => some (.platform, r)
  | none => none

/-- One left-to-right `replace_all` pass, fuelled (structural recursion on
fuel so that concrete runs reduce; fuel `s.length` always suffices since
every step consumes at least one character).  `none` models the
`unimplemented!()` abort on a `LIB`/`PLATFORM` token. -/
def expandGo (origin : List Char) : Nat → List Char → Option (List Char)
  | _, [] => some []
  | 0, _ :: _ => none
  | fuel + 1, c :: rest =>
    match matchTok (c :: rest) with
    | some (.origin, r) => (expandGo origin fuel r).map (origin ++ ·)
    | some (.lib, _) => none
    | some (.platform, _) => none
    | none => (expandGo origin fuel rest).map (c :: ·)

/-- `RE.replace_all(path, ...)` from `get_run_paths`: substitute `ORIGIN`
tokens by the binary's directory; abort (`none`) on `LIB`/`PLATFORM`. -/
def expandRunPath (origin s : List Char) : Option (List Char) :=
  expandGo origin s.length s

/-- Spec-side predicate: the template actually contains a `LIB` or
`PLATFORM` token, under the same left-to-right matcher the code uses. -/
def hasUnsupportedGo : Nat → List Char → Bool
  | _, [] => false
  | 0, _ :: _ => false
  | fuel + 1, c :: rest =>
    match matchTok (c :: rest) with
    | some (.origin, r) => hasUnsupportedGo fuel r
    | some (.lib, _) => true
    | some (.platform, _) => true
    | none => hasUnsupportedGo fuel rest

def hasUnsupportedTok (s : List Char) : Bool :=
  hasUnsupportedGo s.length s

/-! ## ELF model and run-path extraction (`elf::get_run_paths`) -/

/-- One entry of the ELF dynamic section (goblin `dyn::Dyn`): a tag and a
value (for RPATH/RUNPATH entries the value is a string-table offset). -/
structure Dyn where
  d_tag : Nat
  d_val : Nat
deriving DecidableEq

def DT_RPATH : Nat := 15
def DT_RUNPATH : Nat := 29

/-- The pieces of a parsed goblin `Elf` that `bindep.rs` consumes:
the optional dynamic section, the dynamic string table (indexed lookup
may fail to find the offset (`none`) or fail while reading
(`some (.error _)`)), and the `DT_NEEDED` library names in section
order. -/
structure ElfModel where
  dynamic : Option (List Dyn)
  dynstrtab : Nat → Option (Except String String)
  libs : List String

/-- The loop body of `get_run_paths`: for each RPATH/RUNPATH entry fetch
the string, expand tokens (aborting on `LIB`/`PLATFORM`, modelled by
`none`), canonicalize against the filesystem (`canon`), dropping the
entry when canonicalization fails, and skipping entries whose
string-table lookup fails. -/
def processDyns (canon : String → Option String)
    (strtab : Nat → Option (Except String String)) (base : String) :
    List Dyn → Option (List String)
  | [] => some []
  | d :: rest =>
    if d.d_tag = DT_RPATH ∨ d.d_tag = DT_RUNPATH then
      match strtab d.d_val with
      | some (.ok path) =>
        match expandRunPath base.data path.data with
        | none => none
        | some expanded =>
          match canon (String.mk expanded) with
          | some full => (processDyns canon strtab base rest).map (full :: ·)
          | none => processDyns canon strtab base rest
      | some (.error _) => processDyns canon strtab base rest
      | none => processDyns canon strtab base rest
    else processDyns canon strtab base rest

/-- `elf::get_run_paths(elf, base_path)`; `canon` models
`std::fs::canonicalize` (`none` = failure).  `none` overall models the
`unimplemented!()` abort on an unsupported token. -/
def get_run_paths (canon : String → Option String) (elf : ElfModel)
    (base_path : String) : Option (List String) :=
  match elf.dynamic with
  | none => some []
  | some dyns => processDyns canon elf.dynstrtab base_path dyns

/-! ## Library resolution (`Libraries::resolve_path`, `Libraries::next`) -/

def LIBDIRS : List String := ["/lib", "/usr/lib"]

/-- The probing loop of `resolve_path`: first directory whose
`{dir}/{lib}` exists wins. -/
def probe (ex : String → Bool) (lib : String) : List String → Option String
  | [] => none
  | d :: ds =>
    let p := joinPath d lib
    if ex p then some p else probe ex lib ds

/-- `Libraries::resolve_path`: probe the binary's run paths (in order),
then the fixed fallback list `LIBDIRS`.  `ex` models
`Path::exists`. -/
def resolve_path (ex : String → Bool) (run_paths : List String)
    (lib : String) : Option String :=
  probe ex lib (run_paths ++ LIBDIRS)

/-! ## Filesystem model and the closure solver (`Solver`) -/

/-- What parsing a mapped file with `goblin::Object::parse` yields. -/
inductive ObjectKind
  | elf (e : ElfModel)
  | pe
  | mach
  | archive
  | unknown (magic : Nat)

/-- A file that can be opened and memory-mapped: its bytes, and its parse
result (`none` models `Object::parse` returning `Err`). -/
structure FileInfo where
  data : List Nat
  obj : Option ObjectKind

/-- The filesystem as the solver sees it: `files` models
`Mmap::open_path` + `Object::parse` (`none` = cannot open/map),
`exists?` models `Path::exists`, `canon` models
`std::fs::canonicalize`. -/
structure FS where
  files : Path → Option FileInfo
  exists? : Path → Bool
  canon : String → Option String

/-- `elf::libraries(path, elf)`: `Libraries::new` asserts the path is
absolute and is a file (`none` models the `assert!` panic), computes the
run paths once (propagating the `unimplemented!()` abort), then collects
each needed name that resolves, skipping (with a warning) the names that
do not. -/
def libraries (fs : FS) (p : Path) (e : ElfModel) : Option (List Path) :=
  if isAbsolute p = true ∧ (fs.files p).isSome then
    match get_run_paths fs.canon e (parentDir p) with
    | none => none
    | some rps => some (e.libs.filterMap (resolve_path fs.exists? rps))
  else none

/-- One archive entry (`TarBuilderExt`): a regular file (archive path,
content bytes, and the source path whose filesystem metadata is copied),
a symlink (`symlink(dst, src)` writes an entry at `src` pointing at
`dst`), or an empty placeholder. -/
inductive Entry
  | file (tarPath : Path) (data : List Nat) (srcPath : Path)
  | symlink (dst : Path) (src : Path)
  | empty (path : Path)
deriving DecidableEq

/-- The solver state: the visited set (`files : HashSet<PathBuf>`,
modelled as a list queried by membership), the archive entries appended
so far (in order), and `trace`, a ghost field recording each path whose
file was actually opened/mapped and parsed (instrumentation only; it has
no counterpart in the Rust state and influences nothing). -/
structure Solver where
  files : List Path
  tar : List Entry
  trace : List Path
deriving DecidableEq

/-- `Solver::new(writer)`: initialize the archive with the two fixed
normalization symlinks (`sbin` -> `bin` and `usr` -> `.`), before
anything is scanned. -/
def Solver.new : Solver :=
  { files := []
    tar := [Entry.symlink "bin" "sbin", Entry.symlink "." "usr"]
    trace := [] }

/-- Outcome of `scan_file`: `ok` models `Ok(())`, `err` models `Err(_)`
with the formatted message, `panic` models a Rust panic
(`unwrap`/`assert!`/`unimplemented!`), and `fuelOut` is an embedding
artifact (recursion budget exhausted; never reached with enough
fuel). -/
inductive ScanOutcome
  | ok
  | err (msg : String)
  | panic
  | fuelOut
deriving DecidableEq

/-- The `for library in needed_libraries { self.scan_file(&library)?; }`
loop: run `scan` on each path in order, stopping at the first non-`ok`
outcome. -/
def scanEach (scan : Solver → Path → ScanOutcome × Solver) :
    Solver → List Path → ScanOutcome × Solver
  | s, [] => (.ok, s)
  | s, p :: ps =>
    match scan s p with
    | (.ok, s') => scanEach scan s' ps
    | r => r

/-- `Solver::scan_file`.  Mirrors the source order: insert into the
visited set first (`files.replace`; short-circuit with `Ok(())` when the
path was already present), then memory-map (error on failure), then
append the file to the archive at `path.strip_prefix("/").unwrap()`
(panicking when the path is not absolute), then classify the parsed
object — only ELF proceeds, recursing into each resolved library. -/
def scanFile (fs : FS) : Nat → Solver → Path → ScanOutcome × Solver
  | 0 => fun s _ => (.fuelOut, s)
  | fuel + 1 => fun s path =>
    if path ∈ s.files then
      (.ok, s)
    else
      let s1 : Solver := { s with files := path :: s.files }
      match fs.files path with
      | none => (.err ("cannot create memmap for " ++ path), s1)
      | some info =>
        let s2 : Solver := { s1 with trace := s1.trace ++ [path] }
        if isAbsolute path then
          let s3 : Solver :=
            { s2 with tar := s2.tar ++ [Entry.file (stripRoot path) info.data path] }
          match info.obj with
          | none => (.err ("cannot parse executable " ++ path), s3)
          | some (.elf e) =>
            match libraries fs path e with
            | none => (.panic, s3)
            | some deps => scanEach (scanFile fs fuel) s3 deps
          | some .pe => (.err ("unsupported PE binary: " ++ path), s3)
          | some .mach => (.err ("unsupported Mach-O binary: " ++ path), s3)
          | some .archive => (.err ("unsupported file (archive): " ++ path), s3)
          | some (.unknown m) =>
            (.err ("unsupported file (magic " ++ toString m ++ "): " ++ path), s3)
        else
          (.panic, s2)

/-- The seed loop of `main::run`: a fresh solver scanning each seed
binary in order, propagating the first failure. -/
def runScans (fs : FS) (fuel : Nat) (seeds : List Path) :
    ScanOutcome × Solver :=
  scanEach (scanFile fs fuel) Solver.new seeds

/-- The archive the run produces: only a successful run yields one (on
`Err` the program aborts before the compressed artifact is written). -/
def runOutput (r : ScanOutcome × Solver) : Option (List Entry) :=
  match r.1 with
  | .ok => some r.2.tar
  | _ => none

/-- Source paths of the regular-file entries appended by scanning. -/
def tarFilePaths (es : List Entry) : List Path :=
  es.filterMap fun e =>
    match e with
    | .file _ _ src => some src
    | _ => none

/-! ## Streaming checksum writer (csum.rs) -/

/-- The underlying sink (`W : Write`): the bytes it has accepted, in
order, and how many times it has been flushed. -/
structure Sink where
  bytes : List Nat
  flushes : Nat
deriving DecidableEq

def Sink.write (s : Sink) (d : List Nat) : Sink :=
  { s with bytes := s.bytes ++ d }

def Sink.flush (s : Sink) : Sink :=
  { s with flushes := s.flushes + 1 }

/-- `CSumWriter`: the wrapped sink plus the running `Blake2b` state,
modelled as the byte sequence fed to the digest so far (the digest
function itself is kept abstract; see `CSumWriter.into_inner`). -/
structure CSumWriter where
  inner : Sink
  csum : List Nat
deriving DecidableEq

/-- `CSumWriter::new(inner)`. -/
def CSumWriter.new (inner : Sink) : CSumWriter :=
  { inner := inner, csum := [] }

/-- `Write::write`: `self.csum.write_all(data)?; self.inner.write(data)`
— feed the digest, then forward the same bytes to the sink. -/
def CSumWriter.write (w : CSumWriter) (d : List Nat) : CSumWriter :=
  { inner := w.inner.write d, csum := w.csum ++ d }

/-- `Write::flush`: forwarded to the sink; the digest is untouched. -/
def CSumWriter.flush (w : CSumWriter) : CSumWriter :=
  { w with inner := w.inner.flush }

/-- `CSumWriter::into_inner`: consume the writer, yielding the sink and
the finalized digest.  `H` abstracts `Blake2b::finalize` (any digest
function of the fed byte stream). -/
def CSumWriter.into_inner (H : List Nat → List Nat) (w : CSumWriter) :
    Sink × List Nat :=
  (w.inner, H w.csum)

/-- A client-visible operation on the writer. -/
inductive WOp
  | write (data : List Nat)
  | flush
deriving DecidableEq

def runWOps (w : CSumWriter) : List WOp → CSumWriter
  | [] => w
  | .write d :: ops => runWOps (w.write d) ops
  | .flush :: ops => runWOps w.flush ops

/-- Concatenation, in order, of all chunks passed to `write`. -/
def writtenBytes : List WOp → List Nat
  | [] => []
  | .write d :: ops => d ++ writtenBytes ops
  | .flush :: ops => writtenBytes ops

def flushCount : List WOp → Nat
  | [] => 0
  | .write _ :: ops => flushCount ops
  | .flush :: ops => flushCount ops + 1

/-! ## XDG cache (cache.rs, `XdgCache`) -/

/-- The byte-for-byte comparison loop of `XdgCache::add` (returns the
`must_write_contents` flag: `false` when the streams are identical,
`true` at the first divergence or length mismatch). -/
def bytesDiffer : List Nat → List Nat → Bool
  | [], [] => false
  | a :: as_, b :: bs => if a = b then bytesDiffer as_ bs else true
  | _, _ => true

/-- `XdgCache`: the profile's cache directory modelled as an association
list from key to stored bytes (first match wins), plus the
session-validity flag. -/
structure XdgCache where
  store : List (String × List Nat)
  valid : Bool
deriving DecidableEq

/-- `XdgCache::new(profile)`: a fresh session over whatever the backing
directory already contains; `valid` starts `true`. -/
def XdgCache.new (store : List (String × List Nat)) : XdgCache :=
  { store := store, valid := true }

def XdgCache.is_valid (c : XdgCache) : Bool := c.valid

/-- `XdgCache::add`: write only when the key's file is absent or its
stored bytes differ from `data`; any actual write flips `valid` to
`false`. -/
def XdgCache.add (c : XdgCache) (key : String) (data : List Nat) : XdgCache :=
  let must_write :=
    match c.store.lookup key with
    | none => true
    | some stored => bytesDiffer stored data
  if must_write then { store := (key, data) :: c.store, valid := false }
  else c

/-! ## Concrete fixtures used by witnesses and counterexamples -/

/-- An empty filesystem. -/
def fsEmpty : FS :=
  { files := fun _ => none, exists? := fun _ => false, canon := fun _ => none }

/-- A solver state that has already visited `/a`. -/
def solverSeenA : Solver :=
  { files := ["/a"], tar := Solver.new.tar, trace := ["/a"] }

/-- A filesystem whose only file is a PE binary at `/x`. -/
def fsPe : FS :=
  { files := fun p => if p = "/x" then some { data := [1, 2], obj := some .pe } else none
    exists? := fun _ => false
    canon := fun _ => none }

/-- A filesystem whose only file is a (dependency-free) ELF at `rel`. -/
def fsRelElf : FS :=
  { files := fun p =>
      if p = "rel" then
        some { data := [3], obj := some (.elf ⟨none, fun _ => none, []⟩) }
      else none
    exists? := fun _ => false
    canon := fun _ => none }

/-- Classifications other than ELF (the ones `scan_file` rejects). -/
def nonElf : ObjectKind → Bool
  | .elf _ => false
  | _ => true

/-- The run-path template `$\x7bORIGIN\x7d/../lib` from the spec's token
substitution example. -/
def originLibTemplate : String :=
  String.mk ('$' :: lbrace :: ("ORIGIN".data ++ rbrace :: "/../lib".data))

/-- Invariant of the closure solver: no file has been read twice, every
read file is recorded in the visited set, and the source paths of the
archived regular files form a subsequence of the read trace (hence are
themselves duplicate-free). -/
def SolverInv (s : Solver) : Prop :=
  s.trace.Nodup ∧ (∀ q ∈ s.trace, q ∈ s.files) ∧
    List.Sublist (tarFilePaths s.tar) s.trace

/-- A canonicalizer that knows only that `/opt/cc/bin/../lib` really is
`/opt/cc/lib`. -/
def canonOpt : String → Option String :=
  fun q => if q = "/opt/cc/bin/../lib" then some "/opt/cc/lib" else none

/-- An ELF whose single dynamic entry is a `DT_RUNPATH` at string-table
offset 0 holding the `ORIGIN` template. -/
def elfOriginRunPath : ElfModel :=
  { dynamic := some [⟨DT_RUNPATH, 0⟩]
    dynstrtab := fun n => if n = 0 then some (.ok originLibTemplate) else none
    libs := [] }

/-! # Theorems -/

/-! ## Library locator: search order (C2) -/

theorem probe_eq_some_iff (ex : String → Bool) (lib : String) :
    ∀ (ds : List String) (p : String), probe ex lib ds = some p ↔
      ∃ pre d post, ds = pre ++ d :: post ∧ ex (joinPath d lib) = true ∧
        p = joinPath d lib ∧ ∀ d' ∈ pre, ex (joinPath d' lib) = false := by
  intro ds
  induction ds with
  | nil =>
    intro p
    constructor
    · intro h; simp [probe] at h
    · rintro ⟨pre, d, post, h, -⟩
      exact absurd h (by simp)
  | cons d0 ds ih =>
    intro p
    cases h0 : ex (joinPath d0 lib) with
    | true =>
      simp only [probe, h0, if_true]
      constructor
      · intro h
        exact ⟨[], d0, ds, rfl, h0, (Option.some_inj.mp h).symm, by simp⟩
      · rintro ⟨pre, d, post, hds, hex, hp, hpre⟩
        cases pre with
        | nil =>
          simp only [List.nil_append] at hds
          cases hds
          simp [hp]
        | cons q pre' =>
          simp only [List.cons_append, List.cons.injEq] at hds
          have hq : ex (joinPath q lib) = false := hpre q (by simp)
          rw [hds.1] at h0
          rw [h0] at hq
          cases hq
    | false =>
      simp only [probe, h0, Bool.false_eq_true, if_false]
      rw [ih p]
      constructor
      · rintro ⟨pre, d, post, hds, hex, hp, hpre⟩
        refine ⟨d0 :: pre, d, post, by simp [hds], hex, hp, ?_⟩
        intro d' hd'
        rcases List.mem_cons.mp hd' with h | h
        · rw [h]; exact h0
        · exact hpre d' h
      · rintro ⟨pre, d, post, hds, hex, hp, hpre⟩
        cases pre with
        | nil =>
          simp only [List.nil_append] at hds
          cases hds
          simp [hex] at h0
        | cons q pre' =>
          simp only [List.cons_append, List.cons.injEq] at hds
          exact ⟨pre', d, post, hds.2, hex, hp, fun d' hd' => hpre d' (by simp [hd'])⟩

theorem probe_eq_none_iff (ex : String → Bool) (lib : String) :
    ∀ (ds : List String), probe ex lib ds = none ↔
      ∀ d ∈ ds, ex (joinPath d lib) = false := by
  intro ds
  induction ds with
  | nil => simp [probe]
  | cons d0 ds ih =>
    cases h0 : ex (joinPath d0 lib) with
    | true =>
      simp only [probe, h0, if_true]
      constructor
      · intro h; cases h
      · intro h
        have := h d0 (by simp)
        rw [h0] at this
        cases this
    | false =>
      simp only [probe, h0, Bool.false_eq_true, if_false]
      rw [ih]
      constructor
      · intro h d hd
        rcases List.mem_cons.mp hd with h' | h'
        · rw [h']; exact h0
        · exact h d h'
      · intro h d hd
        exact h d (by simp [hd])

/-- C2: `resolve_path` probes, in exactly this order, each run path of
the current binary (in dynamic-section order) and then `/lib` and
`/usr/lib`; it returns `{directory}/{name}` for the first directory in
that order where the file exists, and `none` when every directory is
exhausted. -/
theorem resolve_path_search_order :
    ∀ (ex : String → Bool) (run_paths : List String) (lib : String),
      (∀ p, resolve_path ex run_paths lib = some p ↔
        ∃ pre d post, run_paths ++ ["/lib", "/usr/lib"] = pre ++ d :: post ∧
          ex (joinPath d lib) = true ∧ p = joinPath d lib ∧
          ∀ d' ∈ pre, ex (joinPath d' lib) = false) ∧
      (resolve_path ex run_paths lib = none ↔
        ∀ d ∈ run_paths ++ ["/lib", "/usr/lib"], ex (joinPath d lib) = false) := by
  intro ex run_paths lib
  constructor
  · intro p
    exact probe_eq_some_iff ex lib (run_paths ++ LIBDIRS) p
  · exact probe_eq_none_iff ex lib (run_paths ++ LIBDIRS)

/-! ## Streaming checksum writer (C3) -/

theorem runWOps_spec : ∀ (ops : List WOp) (w : CSumWriter),
    runWOps w ops =
      ⟨⟨w.inner.bytes ++ writtenBytes ops, w.inner.flushes + flushCount ops⟩,
        w.csum ++ writtenBytes ops⟩ := by
  intro ops
  induction ops with
  | nil => intro w; simp [runWOps, writtenBytes, flushCount]
  | cons op ops ih =>
    intro w
    cases op with
    | write d =>
      rw [runWOps, ih]
      simp [CSumWriter.write, Sink.write, writtenBytes, flushCount, List.append_assoc]
    | flush =>
      rw [runWOps, ih]
      simp [CSumWriter.flush, Sink.flush, writtenBytes, flushCount]
      omega

/-- C3: for every sequence of `write`/`flush` calls, every written chunk
is fed to the digest and forwarded unchanged to the sink in the same
order, flushes are forwarded without touching the digest, and the single
finalization yields the digest of exactly the byte stream the sink
received, with no second pass. -/
theorem csum_writer_stream :
    ∀ (H : List Nat → List Nat) (s0 : Sink) (ops : List WOp),
      (runWOps (CSumWriter.new s0) ops).into_inner H =
        (⟨s0.bytes ++ writtenBytes ops, s0.flushes + flushCount ops⟩,
          H (writtenBytes ops)) := by
  intro H s0 ops
  rw [runWOps_spec]
  simp [CSumWriter.new, CSumWriter.into_inner]

/-! ## Run-path token substitution (C7, C8) -/

theorem eatPat_length : ∀ (pat s r : List Char),
    eatPat pat s = some r → r.length + pat.length = s.length := by
  intro pat
  induction pat with
  | nil =>
    intro s r h
    simp [eatPat] at h
    simp [h]
  | cons p ps ih =>
    intro s r h
    cases s with
    | nil => simp [eatPat] at h
    | cons c cs =>
      rw [eatPat] at h
      by_cases hpc : p = c
      · rw [if_pos hpc] at h
        have := ih cs r h
        simp only [List.length_cons]
        omega
      · rw [if_neg hpc] at h
        cases h

theorem matchTok_shrink : ∀ (s : List Char) (t : RPTok) (r : List Char),
    matchTok s = some (t, r) → r.length < s.length := by
  intro s t r h
  rw [matchTok] at h
  cases h1 : eatPat tokOriginBr s with
  | some r1 =>
    rw [h1] at h
    cases h
    have := eatPat_length _ _ _ h1
    simp [tokOriginBr] at this
    omega
  | none =>
  rw [h1] at h
  cases h2 : eatPat tokLibBr s with
  | some r2 =>
    rw [h2] at h
    cases h
    have := eatPat_length _ _ _ h2
    simp [tokLibBr] at this
    omega
  | none =>
  rw [h2] at h
  cases h3 : eatPat tokPlatformBr s with
  | some r3 =>
    rw [h3] at h
    cases h
    have := eatPat_length _ _ _ h3
    simp [tokPlatformBr] at this
    omega
  | none =>
  rw [h3] at h
  cases h4 : eatPat tokOrigin s with
  | some r4 =>
    rw [h4] at h
    cases h
    have := eatPat_length _ _ _ h4
    simp [tokOrigin] at this
    omega
  | none =>
  rw [h4] at h
  cases h5 : eatPat tokLib s with
  | some r5 =>
    rw [h5] at h
    cases h
    have := eatPat_length _ _ _ h5
    simp [tokLib] at this
    omega
  | none =>
  rw [h5] at h
  cases h6 : eatPat tokPlatform s with
  | some r6 =>
    rw [h6] at h
    cases h
    have := eatPat_length _ _ _ h6
    simp [tokPlatform] at this
    omega
  | none =>
    rw [h6] at h
    cases h

/-- The expansion aborts exactly when the scan meets a `LIB` or
`PLATFORM` token (at any fuel at least the template length). -/
theorem expandGo_none_iff (origin : List Char) :
    ∀ (fuel : Nat) (s : List Char), s.length ≤ fuel →
      (expandGo origin fuel s = none ↔ hasUnsupportedGo fuel s = true) := by
  intro fuel
  induction fuel with
  | zero =>
    intro s hs
    cases s with
    | nil => simp [expandGo, hasUnsupportedGo]
    | cons c rest => simp at hs
  | succ fuel ih =>
    intro s hs
    cases s with
    | nil => simp [expandGo, hasUnsupportedGo]
    | cons c rest =>
      rw [expandGo, hasUnsupportedGo]
      cases hm : matchTok (c :: rest) with
      | none =>
        simp only []
        rw [Option.map_eq_none']
        apply ih
        simp only [List.length_cons] at hs
        omega
      | some tr =>
        obtain ⟨t, r⟩ := tr
        have hlt := matchTok_shrink _ _ _ hm
        simp only [List.length_cons] at hs hlt
        cases t with
        | origin =>
          simp only []
          rw [Option.map_eq_none']
          apply ih
          omega
        | lib => simp
        | platform => simp

/-- C8: a run-path template that actually contains a `$LIB`, `$\x7bLIB\x7d`,
`$PLATFORM` or `$\x7bPLATFORM\x7d` token makes the expansion (and hence the
whole run-path extraction for that binary) halt with a hard stop, rather
than substituting a guessed value; templates without such tokens are
unaffected (expansion succeeds). -/
theorem unsupported_token_hard_stop :
    (∀ (origin s : List Char), hasUnsupportedTok s = true →
      expandRunPath origin s = none) ∧
    (∀ (origin s : List Char), hasUnsupportedTok s = false →
      (expandRunPath origin s).isSome = true) ∧
    (∀ (canon : String → Option String)
        (strtab : Nat → Option (Except String String)) (base : String)
        (d : Dyn) (rest : List Dyn) (tmpl : String),
      (d.d_tag = DT_RPATH ∨ d.d_tag = DT_RUNPATH) →
      strtab d.d_val = some (.ok tmpl) →
      hasUnsupportedTok tmpl.data = true →
      processDyns canon strtab base (d :: rest) = none) := by
  refine ⟨?_, ?_, ?_⟩
  · intro origin s h
    exact (expandGo_none_iff origin s.length s le_rfl).mpr h
  · intro origin s h
    rw [hasUnsupportedTok] at h
    rw [Option.isSome_iff_ne_none]
    intro hnone
    have := (expandGo_none_iff origin s.length s le_rfl).mp hnone
    rw [h] at this
    cases this
  · intro canon strtab base d rest tmpl htag hstr htok
    have habort : expandRunPath base.data tmpl.data = none :=
      (expandGo_none_iff base.data tmpl.data.length tmpl.data le_rfl).mpr htok
    rw [processDyns, if_pos htag, hstr]
    simp [habort]

/-- C7: an `ORIGIN` token is replaced by the directory containing the
binary being processed and the substituted string is then canonicalized:
for the template `$\x7bORIGIN\x7d/../lib` on a binary at `/opt/cc/bin/cc1`,
substitution yields `/opt/cc/bin/../lib`, and the extracted run path is
its canonical (real) form.  Canonicalization failure drops the entry and
string-table lookup failure skips the entry, neither failing the run. -/
theorem origin_substitution :
    (expandRunPath "/opt/cc/bin".data originLibTemplate.data =
      some "/opt/cc/bin/../lib".data) ∧
    (∀ (canon : String → Option String) (e : ElfModel) (r : String),
      e.dynamic = some [⟨DT_RUNPATH, 0⟩] →
      e.dynstrtab 0 = some (.ok originLibTemplate) →
      canon "/opt/cc/bin/../lib" = some r →
      get_run_paths canon e (parentDir "/opt/cc/bin/cc1") = some [r]) ∧
    (∀ (canon : String → Option String) (e : ElfModel),
      e.dynamic = some [⟨DT_RUNPATH, 0⟩] →
      e.dynstrtab 0 = some (.ok originLibTemplate) →
      canon "/opt/cc/bin/../lib" = none →
      get_run_paths canon e (parentDir "/opt/cc/bin/cc1") = some []) ∧
    (∀ (canon : String → Option String)
        (strtab : Nat → Option (Except String String)) (base : String)
        (d : Dyn) (rest : List Dyn),
      (strtab d.d_val = none ∨ ∃ msg, strtab d.d_val = some (.error msg)) →
      processDyns canon strtab base (d :: rest) =
        processDyns canon strtab base rest) := by
  have hexp : expandRunPath "/opt/cc/bin".data originLibTemplate.data =
      some "/opt/cc/bin/../lib".data := by decide
  have hbase : parentDir "/opt/cc/bin/cc1" = "/opt/cc/bin" := by decide
  refine ⟨hexp, ?_, ?_, ?_⟩
  · intro canon e r hdyn hstr hcanon
    simp only [get_run_paths, hdyn, hbase]
    rw [processDyns, if_pos (by simp [DT_RPATH, DT_RUNPATH]), hstr]
    simp [hexp, hcanon, processDyns]
  · intro canon e hdyn hstr hcanon
    simp only [get_run_paths, hdyn, hbase]
    rw [processDyns, if_pos (by simp [DT_RPATH, DT_RUNPATH]), hstr]
    simp [hexp, hcanon, processDyns]
  · intro canon strtab base d rest h
    rw [processDyns]
    by_cases htag : d.d_tag = DT_RPATH ∨ d.d_tag = DT_RUNPATH
    · rw [if_pos htag]
      rcases h with h | ⟨msg, h⟩ <;> rw [h]
    · rw [if_neg htag]

/-! ## Closure solver lemmas -/

theorem scanEach_preserve (P : Solver → Prop)
    (scan : Solver → Path → ScanOutcome × Solver)
    (hscan : ∀ s p, P s → P (scan s p).2) :
    ∀ (ps : List Path) (s : Solver), P s → P (scanEach scan s ps).2 := by
  intro ps
  induction ps with
  | nil => intro s h; exact h
  | cons p ps ih =>
    intro s h
    have hps := hscan s p h
    rw [scanEach]
    cases hr : scan s p with
    | mk o s' =>
      rw [hr] at hps
      cases o
      case ok => exact ih s' hps
      all_goals exact hps

/-- Whatever `scan_file` does, it only grows the visited set. -/
theorem scanFile_files_mono (fs : FS) :
    ∀ (fuel : Nat) (s : Solver) (p q : Path),
      q ∈ s.files → q ∈ (scanFile fs fuel s p).2.files := by
  intro fuel
  induction fuel with
  | zero => intro s p q hq; exact hq
  | succ fuel ih =>
    intro s p q hq
    simp only [scanFile]
    by_cases hmem : p ∈ s.files
    · rw [if_pos hmem]; exact hq
    · rw [if_neg hmem]
      have hq1 : q ∈ p :: s.files := List.mem_cons_of_mem _ hq
      cases hf : fs.files p with
      | none => exact hq1
      | some info =>
        simp only []
        cases hab : isAbsolute p with
        | false => simp only [Bool.false_eq_true, if_false]; exact hq1
        | true =>
          simp only [if_true]
          cases ho : info.obj with
          | none => exact hq1
          | some kind =>
            cases kind with
            | elf e =>
              simp only []
              cases hl : libraries fs p e with
              | none => exact hq1
              | some deps =>
                simp only []
                exact scanEach_preserve (fun st => q ∈ st.files) _
                  (fun s' p' h' => ih s' p' q h') deps _ hq1
            | pe => exact hq1
            | mach => exact hq1
            | archive => exact hq1
            | unknown m => exact hq1

/-- Whatever `scan_file` does, it only appends to the archive. -/
theorem scanFile_tar_append (fs : FS) :
    ∀ (fuel : Nat) (s : Solver) (p : Path),
      ∃ t, (scanFile fs fuel s p).2.tar = s.tar ++ t := by
  intro fuel
  induction fuel with
  | zero => intro s p; exact ⟨[], by simp [scanFile]⟩
  | succ fuel ih =>
    intro s p
    simp only [scanFile]
    by_cases hmem : p ∈ s.files
    · rw [if_pos hmem]; exact ⟨[], by simp⟩
    · rw [if_neg hmem]
      cases hf : fs.files p with
      | none => exact ⟨[], by simp⟩
      | some info =>
        simp only []
        cases hab : isAbsolute p with
        | false => simp only [Bool.false_eq_true, if_false]; exact ⟨[], by simp⟩
        | true =>
          simp only [if_true]
          have base : ∀ (st : Solver), st.tar = s.tar ++
              [Entry.file (stripRoot p) info.data p] →
              ∃ t, st.tar = s.tar ++ t := fun st h => ⟨_, h⟩
          cases ho : info.obj with
          | none => exact ⟨[Entry.file (stripRoot p) info.data p], by simp⟩
          | some kind =>
            cases kind with
            | elf e =>
              simp only []
              cases hl : libraries fs p e with
              | none => exact ⟨[Entry.file (stripRoot p) info.data p], by simp⟩
              | some deps =>
                simp only []
                have hstep : ∀ (s' : Solver) (p' : Path),
                    (∃ t, s'.tar = s.tar ++ t) →
                    ∃ t, ((scanFile fs fuel s' p').2.tar = s.tar ++ t) := by
                  rintro s' p' ⟨t, ht⟩
                  obtain ⟨t', ht'⟩ := ih s' p'
                  exact ⟨t ++ t', by rw [ht', ht, List.append_assoc]⟩
                exact scanEach_preserve (fun st => ∃ t, st.tar = s.tar ++ t) _
                  hstep deps _ ⟨[Entry.file (stripRoot p) info.data p], by simp⟩
            | pe => exact ⟨[Entry.file (stripRoot p) info.data p], by simp⟩
            | mach => exact ⟨[Entry.file (stripRoot p) info.data p], by simp⟩
            | archive => exact ⟨[Entry.file (stripRoot p) info.data p], by simp⟩
            | unknown m => exact ⟨[Entry.file (stripRoot p) info.data p], by simp⟩

/-- `scan_file` preserves the solver invariant (no double reads, reads
recorded as visited, archived file paths a subsequence of the reads). -/
theorem scanFile_inv (fs : FS) :
    ∀ (fuel : Nat) (s : Solver) (p : Path),
      SolverInv s → SolverInv (scanFile fs fuel s p).2 := by
  intro fuel
  induction fuel with
  | zero => intro s p h; exact h
  | succ fuel ih =>
    intro s p h
    obtain ⟨hnd, hmemf, hsub⟩ := h
    simp only [scanFile]
    by_cases hmem : p ∈ s.files
    · rw [if_pos hmem]; exact ⟨hnd, hmemf, hsub⟩
    · rw [if_neg hmem]
      have hptr : p ∉ s.trace := fun hc => hmem (hmemf p hc)
      have hinv1 : SolverInv { s with files := p :: s.files } :=
        ⟨hnd, fun q hq => List.mem_cons_of_mem _ (hmemf q hq), hsub⟩
      have hnd2 : (s.trace ++ [p]).Nodup := by
        simp [List.nodup_append, hnd, hptr]
      have hmemf2 : ∀ q ∈ s.trace ++ [p], q ∈ p :: s.files := by
        intro q hq
        rcases List.mem_append.mp hq with hq | hq
        · exact List.mem_cons_of_mem _ (hmemf q hq)
        · simp at hq
          simp [hq]
      have hsub2 : List.Sublist (tarFilePaths s.tar) (s.trace ++ [p]) :=
        hsub.trans (List.sublist_append_left _ _)
      cases hf : fs.files p with
      | none => exact hinv1
      | some info =>
        simp only []
        cases hab : isAbsolute p with
        | false =>
          simp only [Bool.false_eq_true, if_false]
          exact ⟨hnd2, hmemf2, hsub2⟩
        | true =>
          simp only [if_true]
          have hsub3 : List.Sublist
              (tarFilePaths (s.tar ++ [Entry.file (stripRoot p) info.data p]))
              (s.trace ++ [p]) := by
            rw [tarFilePaths, List.filterMap_append]
            exact List.Sublist.append hsub (by simp [tarFilePaths])
          have hinv3 : SolverInv
              (⟨p :: s.files, s.tar ++ [Entry.file (stripRoot p) info.data p],
                s.trace ++ [p]⟩ : Solver) :=
            ⟨hnd2, hmemf2, hsub3⟩
          cases ho : info.obj with
          | none => exact hinv3
          | some kind =>
            cases kind with
            | elf e =>
              simp only []
              cases hl : libraries fs p e with
              | none => exact hinv3
              | some deps =>
                simp only []
                exact scanEach_preserve SolverInv _
                  (fun s' p' h' => ih s' p' h') deps _ hinv3
            | pe => exact hinv3
            | mach => exact hinv3
            | archive => exact hinv3
            | unknown m => exact hinv3

/-! ## C1: each path archived and parsed exactly once -/

/-- C1: a `scan_file` call on a path already in the visited set returns
`Ok(())` with the state untouched (no re-read, no duplicate archive
entry); a scanned path always ends up in the visited set (it is inserted
before its dependencies are recursed into); and over any whole run, on
any dependency graph (cycles and diamonds included), no file is ever
read twice and no path is archived twice. -/
theorem closure_visit_idempotent :
    (∀ (fs : FS) (fuel : Nat) (s : Solver) (p : Path), p ∈ s.files →
      scanFile fs (fuel + 1) s p = (.ok, s)) ∧
    (∀ (fs : FS) (fuel : Nat) (s : Solver) (p : Path),
      p ∈ (scanFile fs (fuel + 1) s p).2.files) ∧
    (∀ (fs : FS) (fuel : Nat) (seeds : List Path),
      (runScans fs fuel seeds).2.trace.Nodup ∧
      (tarFilePaths (runScans fs fuel seeds).2.tar).Nodup) := by
  refine ⟨?_, ?_, ?_⟩
  · intro fs fuel s p hmem
    simp only [scanFile]
    rw [if_pos hmem]
  · intro fs fuel s p
    by_cases hmem : p ∈ s.files
    · simp only [scanFile]
      rw [if_pos hmem]
      exact hmem
    · simp only [scanFile]
      rw [if_neg hmem]
      have hp1 : p ∈ p :: s.files := List.mem_cons_self _ _
      cases hf : fs.files p with
      | none => exact hp1
      | some info =>
        simp only []
        cases hab : isAbsolute p with
        | false => simp only [Bool.false_eq_true, if_false]; exact hp1
        | true =>
          simp only [if_true]
          cases ho : info.obj with
          | none => exact hp1
          | some kind =>
            cases kind with
            | elf e =>
              simp only []
              cases hl : libraries fs p e with
              | none => exact hp1
              | some deps =>
                simp only []
                exact scanEach_preserve (fun st => p ∈ st.files) _
                  (fun s' p' h' => scanFile_files_mono fs fuel s' p' p h')
                  deps _ hp1
            | pe => exact hp1
            | mach => exact hp1
            | archive => exact hp1
            | unknown m => exact hp1
  · intro fs fuel seeds
    have hinv : SolverInv (runScans fs fuel seeds).2 := by
      rw [runScans]
      refine scanEach_preserve SolverInv _
        (fun s' p' h' => scanFile_inv fs fuel s' p' h') seeds Solver.new
        ⟨List.nodup_nil, ?_, ?_⟩
      · intro q hq
        simp [Solver.new] at hq
      · have h1 : tarFilePaths Solver.new.tar = [] := rfl
        show List.Sublist (tarFilePaths Solver.new.tar) Solver.new.trace
        rw [h1]
        exact List.nil_sublist _
    exact ⟨hinv.1, hinv.1.sublist hinv.2.2⟩

/-- Witness for `closure_visit_idempotent`: a path already visited is
skipped with the state untouched. -/
theorem closure_visit_idempotent_witness :
    ("/a" ∈ solverSeenA.files) ∧
    scanFile fsEmpty 1 solverSeenA "/a" = (.ok, solverSeenA) :=
  ⟨by decide, closure_visit_idempotent.1 fsEmpty 0 solverSeenA "/a" (by decide)⟩

/-! ## C5: non-ELF inputs are fatal -/

/-- C5: scanning a file whose parsed object format is not ELF (PE,
Mach-O, archive, or unrecognized magic) returns an error naming the
offending path, and a run seeded with such a file aborts, producing no
archive output. -/
theorem nonelf_fatal :
    ∀ (fs : FS) (fuel : Nat) (s : Solver) (p : Path) (info : FileInfo)
      (kind : ObjectKind),
      fs.files p = some info → info.obj = some kind → nonElf kind = true →
      isAbsolute p = true →
      (p ∉ s.files → ∃ msg s', scanFile fs (fuel + 1) s p = (.err msg, s') ∧
        ∃ a b, msg = a ++ p ++ b) ∧
      (∀ rest, runOutput (runScans fs (fuel + 1) (p :: rest)) = none) := by
  intro fs fuel s p info kind hfile hobj hkind habs
  have main : ∀ (s : Solver), p ∉ s.files →
      ∃ msg s', scanFile fs (fuel + 1) s p = (.err msg, s') ∧
        ∃ a b, msg = a ++ p ++ b := by
    intro s hmem
    simp only [scanFile]
    rw [if_neg hmem, hfile]
    simp only [habs, if_true]
    rw [hobj]
    cases kind with
    | elf e => simp [nonElf] at hkind
    | pe =>
      exact ⟨_, _, rfl, "unsupported PE binary: ", "",
        by rw [String.append_empty]⟩
    | mach =>
      exact ⟨_, _, rfl, "unsupported Mach-O binary: ", "",
        by rw [String.append_empty]⟩
    | archive =>
      exact ⟨_, _, rfl, "unsupported file (archive): ", "",
        by rw [String.append_empty]⟩
    | unknown m =>
      exact ⟨_, _, rfl, "unsupported file (magic " ++ toString m ++ "): ", "",
        by rw [String.append_empty]⟩
  refine ⟨main s, ?_⟩
  intro rest
  obtain ⟨msg, s', hscan, -⟩ := main Solver.new (by simp [Solver.new])
  rw [runScans, scanEach, hscan]
  rfl

/-- Witness for `nonelf_fatal`: a PE binary at `/x` with a fresh
solver. -/
theorem nonelf_fatal_witness :
    fsPe.files "/x" = some ⟨[1, 2], some .pe⟩ ∧
    (∃ msg s', scanFile fsPe 1 Solver.new "/x" = (.err msg, s') ∧
      ∃ a b, msg = a ++ "/x" ++ b) ∧
    runOutput (runScans fsPe 1 ["/x"]) = none :=
  ⟨rfl,
    (nonelf_fatal fsPe 0 Solver.new "/x" ⟨[1, 2], some .pe⟩ .pe rfl rfl rfl
      (by decide)).1 (by simp [Solver.new]),
    (nonelf_fatal fsPe 0 Solver.new "/x" ⟨[1, 2], some .pe⟩ .pe rfl rfl rfl
      (by decide)).2 []⟩

/-! ## C6: resolution misses are non-fatal and omitted -/

/-- C6: a library name that resolves in no search directory is simply
omitted: the collected dependency list is the same as if the name were
absent (later names of the same binary are still processed), and library
collection for the binary still succeeds (no error is raised), so the
run can continue with the other binaries. -/
theorem resolution_miss_nonfatal :
    (∀ (ex : String → Bool) (rps : List String) (n : String)
        (pre post : List String),
      resolve_path ex rps n = none →
      (pre ++ n :: post).filterMap (resolve_path ex rps) =
        (pre ++ post).filterMap (resolve_path ex rps)) ∧
    (∀ (fs : FS) (p : Path) (e : ElfModel),
      isAbsolute p = true → (fs.files p).isSome = true →
      (get_run_paths fs.canon e (parentDir p)).isSome = true →
      (libraries fs p e).isSome = true) := by
  constructor
  · intro ex rps n pre post h
    simp [List.filterMap_append, List.filterMap_cons, h]
  · intro fs p e habs hfile hrp
    rw [libraries, if_pos ⟨habs, hfile⟩]
    obtain ⟨rps, hrps⟩ := Option.isSome_iff_exists.mp hrp
    rw [hrps]
    rfl

/-- Witness for `resolution_miss_nonfatal`: with nothing on the
filesystem, an unresolvable name in the middle of the needed list is
dropped and the rest is processed. -/
theorem resolution_miss_nonfatal_witness :
    resolve_path (fun _ => false) [] "libz.so" = none ∧
    (["libc.so.6"] ++ "libz.so" :: ["libm.so"]).filterMap
        (resolve_path (fun _ => false) []) =
      (["libc.so.6"] ++ ["libm.so"]).filterMap
        (resolve_path (fun _ => false) []) :=
  ⟨by decide,
    resolution_miss_nonfatal.1 (fun _ => false) [] "libz.so" ["libc.so.6"]
      ["libm.so"] (by decide)⟩

/-! ## C9: archive initialization and append-only discipline -/

/-- C9: every successfully created solver starts its archive with
exactly the two fixed normalization symlinks — the entry at `sbin`
aliasing it to `bin` and the entry at `usr` aliasing it to the archive
root `.` — before any scanned file; scanning only ever appends to the
archive, so these two entries stay first and no entry is ever revisited
or rewritten. -/
theorem archive_init_symlinks :
    (Solver.new.tar = [Entry.symlink "bin" "sbin", Entry.symlink "." "usr"]) ∧
    (∀ (fs : FS) (fuel : Nat) (s : Solver) (p : Path),
      ∃ t, (scanFile fs fuel s p).2.tar = s.tar ++ t) ∧
    (∀ (fs : FS) (fuel : Nat) (seeds : List Path),
      ∃ t, (runScans fs fuel seeds).2.tar =
        [Entry.symlink "bin" "sbin", Entry.symlink "." "usr"] ++ t) := by
  refine ⟨rfl, fun fs fuel s p => scanFile_tar_append fs fuel s p, ?_⟩
  intro fs fuel seeds
  rw [runScans]
  have hstep : ∀ (s' : Solver) (p' : Path),
      (∃ t, s'.tar = Solver.new.tar ++ t) →
      ∃ t, (scanFile fs fuel s' p').2.tar = Solver.new.tar ++ t := by
    rintro s' p' ⟨t, ht⟩
    obtain ⟨t', ht'⟩ := scanFile_tar_append fs fuel s' p'
    exact ⟨t ++ t', by rw [ht', ht, List.append_assoc]⟩
  exact scanEach_preserve (fun st => ∃ t, st.tar = Solver.new.tar ++ t) _
    hstep seeds Solver.new ⟨[], by simp⟩

/-! ## C7, C8 witnesses -/

/-- Witness for `origin_substitution`: with a concrete canonicalizer and
a concrete ELF carrying the `ORIGIN` template, the extracted run path is
the real path of `/opt/cc/lib`. -/
theorem origin_substitution_witness :
    canonOpt "/opt/cc/bin/../lib" = some "/opt/cc/lib" ∧
    get_run_paths canonOpt elfOriginRunPath (parentDir "/opt/cc/bin/cc1") =
      some ["/opt/cc/lib"] :=
  ⟨rfl, origin_substitution.2.1 canonOpt elfOriginRunPath "/opt/cc/lib"
    rfl rfl rfl⟩

/-- Witness for `unsupported_token_hard_stop`: the template `$LIB/x`
contains an unsupported token and its expansion aborts. -/
theorem unsupported_token_hard_stop_witness :
    hasUnsupportedTok "$LIB/x".data = true ∧
    expandRunPath "/d".data "$LIB/x".data = none :=
  ⟨by decide,
    unsupported_token_hard_stop.1 "/d".data "$LIB/x".data (by decide)⟩

/-! ## C4: cache change detection -/

theorem bytesDiffer_eq_false_iff : ∀ a b : List Nat,
    bytesDiffer a b = false ↔ a = b := by
  intro a
  induction a with
  | nil =>
    intro b
    cases b <;> simp [bytesDiffer]
  | cons x xs ih =>
    intro b
    cases b with
    | nil => simp [bytesDiffer]
    | cons y ys =>
      rw [bytesDiffer]
      by_cases hxy : x = y
      · simp [hxy, ih]
      · simp [hxy]

/-- C4 counterexample: on a fresh session over an empty backing store,
`add("k", b"A")` twice leaves `is_valid() == false`, not `true` — the
first write of a never-before-seen key already invalidates the
session. -/
theorem cache_fresh_add_counterexample :
    ((((XdgCache.new []).add "k" [65]).add "k" [65]).is_valid) = false := by
  decide

/-- C4 (amended): on a fresh session whose backing store already holds
the same bytes under the key, writing those identical bytes twice leaves
`is_valid() == true`, and a subsequent `add` with different bytes flips
it to `false`; in general `add` compares the new bytes byte-for-byte
against the stored bytes and rewrites the stored blob (invalidating the
session) only when they differ. -/
theorem cache_change_detection :
    (∀ (store0 : List (String × List Nat)) (A B : List Nat),
      store0.lookup "k" = some A → A ≠ B →
      ((((XdgCache.new store0).add "k" A).add "k" A).is_valid = true) ∧
      (((((XdgCache.new store0).add "k" A).add "k" A).add "k" B).is_valid
        = false)) ∧
    (∀ (c : XdgCache) (key : String) (data stored : List Nat),
      c.store.lookup key = some stored →
      (bytesDiffer stored data = false → c.add key data = c) ∧
      (bytesDiffer stored data = true →
        (c.add key data).store = (key, data) :: c.store ∧
        (c.add key data).valid = false)) ∧
    (∀ a b : List Nat, bytesDiffer a b = false ↔ a = b) := by
  have hgen : ∀ (c : XdgCache) (key : String) (data stored : List Nat),
      c.store.lookup key = some stored →
      (bytesDiffer stored data = false → c.add key data = c) ∧
      (bytesDiffer stored data = true →
        (c.add key data).store = (key, data) :: c.store ∧
        (c.add key data).valid = false) := by
    intro c key data stored hlook
    constructor
    · intro hdiff
      simp only [XdgCache.add, hlook]
      rw [hdiff]
      rfl
    · intro hdiff
      simp only [XdgCache.add, hlook]
      rw [hdiff]
      exact ⟨rfl, rfl⟩
  refine ⟨?_, hgen, bytesDiffer_eq_false_iff⟩
  intro store0 A B hlook hAB
  have hsame : bytesDiffer A A = false := (bytesDiffer_eq_false_iff A A).mpr rfl
  have hdiffB : bytesDiffer A B = true := by
    cases hd : bytesDiffer A B with
    | false => exact absurd ((bytesDiffer_eq_false_iff A B).mp hd) hAB
    | true => rfl
  have h1 : (XdgCache.new store0).add "k" A = XdgCache.new store0 :=
    (hgen (XdgCache.new store0) "k" A A hlook).1 hsame
  have h2 : ((XdgCache.new store0).add "k" A).add "k" A = XdgCache.new store0 := by
    rw [h1, h1]
  constructor
  · rw [h2]; rfl
  · rw [h2]
    exact ((hgen (XdgCache.new store0) "k" B A hlook).2 hdiffB).2

/-- Witness for `cache_change_detection`: the store already holds `A`
(the byte 65) under `"k"`; two identical writes keep validity, a write
of 66 drops it. -/
theorem cache_change_detection_witness :
    ([("k", [65])] : List (String × List Nat)).lookup "k" = some [65] ∧
    ((((XdgCache.new [("k", [65])]).add "k" [65]).add "k" [65]).is_valid
      = true) ∧
    (((((XdgCache.new [("k", [65])]).add "k" [65]).add "k" [65]).add "k" [66]).is_valid
      = false) :=
  ⟨by decide,
    (cache_change_detection.1 [("k", [65])] [65] [66] (by decide) (by decide)).1,
    (cache_change_detection.1 [("k", [65])] [65] [66] (by decide) (by decide)).2⟩

/-! ## C10: scan_file on relative paths -/

/-- C10 counterexample: `scan_file` on a relative path that cannot be
opened returns an error `Result` (the memmap failure) — it does not
panic, contradicting the claim that any relative path panics. -/
theorem relative_path_counterexample :
    isAbsolute "rel" = false ∧
    (scanFile fsEmpty 1 Solver.new "rel").1 =
      .err ("cannot create memmap for rel") := by
  decide

/-- C10 (amended): `scan_file` has an unstated precondition that the
path is absolute: on a relative path that can be opened and
memory-mapped it panics (at `strip_prefix("/").unwrap()`), while on a
relative path that cannot be opened it returns an error `Result`. -/
theorem relative_path_panics :
    (∀ (fs : FS) (fuel : Nat) (s : Solver) (p : Path) (info : FileInfo),
      isAbsolute p = false → p ∉ s.files → fs.files p = some info →
      (scanFile fs (fuel + 1) s p).1 = .panic) ∧
    (∀ (fs : FS) (fuel : Nat) (s : Solver) (p : Path),
      isAbsolute p = false → p ∉ s.files → fs.files p = none →
      ∃ msg, (scanFile fs (fuel + 1) s p).1 = .err msg) := by
  constructor
  · intro fs fuel s p info hrel hmem hfile
    simp only [scanFile]
    rw [if_neg hmem, hfile]
    simp [hrel]
  · intro fs fuel s p hrel hmem hfile
    simp only [scanFile]
    rw [if_neg hmem, hfile]
    exact ⟨_, rfl⟩

/-- Witness for `relative_path_panics`: the relative path `rel` denotes
an existing ELF, and scanning it panics. -/
theorem relative_path_panics_witness :
    isAbsolute "rel" = false ∧
    (scanFile fsRelElf 1 Solver.new "rel").1 = .panic :=
  ⟨by decide,
    relative_path_panics.1 fsRelElf 0 Solver.new "rel"
      ⟨[3], some (.elf ⟨none, fun _ => none, []⟩)⟩ (by decide)
      (by simp [Solver.new]) rfl⟩

end Popsicle
